import Mathlib

/-!
Verification development for the HiSilicon "MutiCipher" (MUC) block-cipher
engine driver (`hica_muc_*` in drivers/clk/hisilicon/crg-hi3798.c).

The definitions below are a shallow embedding of the driver's pure control
and data logic:

* the scatter-gather cursor (`struct sg_iter` and its helpers),
* the descriptor-ring builder (`hica_muc_list_append`),
* the ring-channel push state machine (`_hica_muc_chan_push_n`),
* the `dirty`-flag wrapper (`hica_muc_chan_push`) together with the
  sweeper's per-channel step (`hica_muc_process`) and the interrupt
  handler's dirty-bit clearing (`hica_muc_handle`),
* the channel allocator loop of `hica_muc_alg_encdec`,
* `hica_muc_alg_setkey` with its DES weak-key screen,
* the channel-availability check of `hica_muc_probe`,
* the key/IV register-erasure performed by `hica_muc_chan_unprepare`.

Hardware registers are modelled as explicit inputs (values the `readl`
calls would return) or as word-indexed regions (`Nat → Nat`).  Machine
integers hold small counts and addresses here, so they are modelled as
`Nat`; error codes are `Int` (negative errno values as in the C source).
Ring placement (which slot index of the circular descriptor array a
produced descriptor is stored into) is abstracted away: the embeddings
return the sequence of descriptors written, which is what the verified
properties are about.
-/

namespace MucSpec

/-! ### Constants from the source -/

def MUC_BUF_FLAG_DUMMY : Nat := 2 ^ 20

def MUC_BUF_FLAG_SET_IV : Nat := 2 ^ 21

def MUC_BUF_FLAG_END_OF_LIST : Nat := 2 ^ 22

def MUC_BUF_LEN_MAX : Nat := 0xffff0

def MUC_IV_SIZE : Nat := 16

def MUC_BLOCK_SIZE : Nat := 16

def MUC_KEY_SIZE : Nat := 32

def MUC_BUF_NUM : Nat := 15

def MUC_CHAN_PKG1 : Nat := 0

def MUC_CHAN_PKGn_MIN : Nat := 1

def MUC_CHAN_NUM : Nat := 8

def MUC_ALG_DES : Nat := 0

def MUC_ALG_DES3_EDE : Nat := 1

def MUC_ALG_AES : Nat := 2

def DES_KEY_SIZE : Nat := 8

def DES3_EDE_KEY_SIZE : Nat := 24

/-- Linux errno values used by the driver (returned negated). -/
def eIo : Int := 5

def eNomem : Int := 12

def eFault : Int := 14

def eBusy : Int := 16

def eNodev : Int := 19

def eInval : Int := 22

def eInprogress : Int := 115

deriving instance DecidableEq for Except

/-! ### Scatter-gather iterator (`struct sg_iter`) -/

/-- One scatterlist node after DMA mapping: device address and length. -/
structure SgNode where
  addr : Nat
  len : Nat
deriving Repr, DecidableEq

/-- `struct sg_iter`: current node list, offset inside the current node,
and cumulative offset from the start of the request. -/
structure SgIter where
  sgs : List SgNode
  sg_offset : Nat
  offset : Nat
deriving Repr, DecidableEq

/-- Loop body of `sg_iter_normalize`: drop exhausted nodes. -/
def sgNormalizeGo : List SgNode → Nat → List SgNode × Nat
  | [], off => ([], off)
  | n :: rest, off =>
    if n.len ≤ off then sgNormalizeGo rest (off - n.len) else (n :: rest, off)

/-- Model of `sg_iter_normalize` (the cumulative offset is untouched). -/
def sgIterNormalize (it : SgIter) : SgIter :=
  { it with
    sgs := (sgNormalizeGo it.sgs it.sg_offset).1
    sg_offset := (sgNormalizeGo it.sgs it.sg_offset).2 }

/-- Model of `sg_iter_valid`. -/
def sgIterValid (it : SgIter) : Bool :=
  match it.sgs with
  | [] => false
  | n :: _ => it.sg_offset < n.len

/-- Model of `sg_iter_len`: bytes remaining in the current node. -/
def sgIterLen (it : SgIter) : Nat :=
  match it.sgs with
  | [] => 0
  | n :: _ => n.len - it.sg_offset

/-- Model of `sg_iter_dma_address`. -/
def sgIterAddr (it : SgIter) : Nat :=
  match it.sgs with
  | [] => 0
  | n :: _ => n.addr + it.sg_offset

/-- Model of `sg_iter_inc`: advance by `len` bytes and normalize. -/
def sgIterInc (it : SgIter) (len : Nat) : SgIter :=
  sgIterNormalize
    { it with sg_offset := it.sg_offset + len, offset := it.offset + len }

/-- Model of `sg_iter_init`. -/
def sgIterInit (sgs : List SgNode) : SgIter :=
  { sgs := sgs, sg_offset := 0, offset := 0 }

/-! ### Hardware buffer descriptor (`struct hica_muc_buf`)

`iv_addr` is `none` when the driver did not assign the field (the C code
leaves the ring slot's previous value in place in that case). -/

structure MucBuf where
  addr : Nat
  len : Nat
  flags : Nat
  iv_addr : Option Nat
deriving Repr, DecidableEq

/-! ### Descriptor-ring builder (`hica_muc_list_append`) -/

/-- Parameters the builder loop reads from the channel, the request context
and the transform context. -/
structure AppendCfg where
  runlen : Nat
  cryptlen : Nat
  chunksize : Nat
  ecb : Bool
  is_dst : Bool
  pad_addr : Nat
  iv_addr : Nat
  list_size : Nat
deriving Repr, DecidableEq

/-- Tail of one loop iteration of `hica_muc_list_append`: the "if to set
IV, limit request to chunk border" override, then the descriptor store and
cursor advance. -/
def appendFinish (cfg : AppendCfg) (iter : SgIter) (addr len flags : Nat) :
    MucBuf × SgIter :=
  if cfg.is_dst = false ∧ cfg.ecb = false ∧ iter.offset < cfg.chunksize ∧
      cfg.chunksize ≤ iter.offset + len then
    ({ addr := addr, len := cfg.chunksize - iter.offset,
       flags := MUC_BUF_FLAG_SET_IV + MUC_BUF_FLAG_END_OF_LIST,
       iv_addr := some cfg.iv_addr },
     sgIterInc iter (cfg.chunksize - iter.offset))
  else
    ({ addr := addr, len := len, flags := flags, iv_addr := none },
     sgIterInc iter len)

/-- One loop iteration of `hica_muc_list_append`: the stream-padding branch
versus the scatter-node branch (`none` models the `WARN_ON` `-EFAULT`
return on an invalid cursor). -/
def appendStep (cfg : AppendCfg) (iter : SgIter) : Option (MucBuf × SgIter) :=
  if cfg.cryptlen ≤ iter.offset then
    some (appendFinish cfg iter cfg.pad_addr (cfg.runlen - iter.offset)
      MUC_BUF_FLAG_END_OF_LIST)
  else if sgIterValid iter then
    some (appendFinish cfg iter (sgIterAddr iter)
      (min (min (sgIterLen iter) (cfg.runlen - iter.offset)) MUC_BUF_LEN_MAX)
      (if min (min (sgIterLen iter) (cfg.runlen - iter.offset)) MUC_BUF_LEN_MAX
          = cfg.runlen - iter.offset
       then MUC_BUF_FLAG_END_OF_LIST else 0))
  else
    none

/-- The loop of `hica_muc_list_append`, recursing on the remaining ring
capacity `k` (the C loop runs `n` from `0` while `n < chan->list_size`;
`k = list_size - n`).  Returns the descriptors emitted, in order, and the
advanced cursor. -/
def listAppendRec (cfg : AppendCfg) : Nat → SgIter →
    Option (List MucBuf × SgIter)
  | 0, iter => some ([], iter)
  | k + 1, iter =>
    if iter.offset < cfg.runlen then
      match appendStep cfg iter with
      | none => none
      | some (buf, iter1) =>
        match listAppendRec cfg k iter1 with
        | none => none
        | some (ds, itf) => some (buf :: ds, itf)
    else
      some ([], iter)

/-- Model of `hica_muc_list_append`: one call appends at most `list_size`
descriptors (its C return value is the length of the returned list). -/
def hica_muc_list_append (cfg : AppendCfg) (iter : SgIter) :
    Option (List MucBuf × SgIter) :=
  listAppendRec cfg cfg.list_size iter

/-- Full emission of one ring (source or destination) of one request:
`hica_muc_list_append` is called once per push round until the cursor
reaches `runlen`.  `fuel` bounds the number of rounds; the theorems below
are conditional on the emission having completed (`some`). -/
def emitAll (cfg : AppendCfg) : Nat → SgIter → Option (List MucBuf)
  | fuel, iter =>
    if cfg.runlen ≤ iter.offset then some []
    else
      match fuel with
      | 0 => none
      | fuel + 1 =>
        match hica_muc_list_append cfg iter with
        | none => none
        | some (ds, iter1) =>
          match emitAll cfg fuel iter1 with
          | none => none
          | some rest => some (ds ++ rest)

/-- Sum of descriptor lengths. -/
def sumLens (ds : List MucBuf) : Nat := (ds.map MucBuf.len).sum

/-- Pair every descriptor with the request offset at which it starts. -/
def withStarts (o : Nat) : List MucBuf → List (Nat × MucBuf)
  | [] => []
  | d :: ds => (o, d) :: withStarts (o + d.len) ds

/-- Invariant of a descriptor run produced by the ring builder, spanning
request offsets `o` to `o2`: no descriptor carries the dummy flag;
descriptors in the stream-padding region point at the pad buffer and are
end-of-list; a descriptor carrying set-iv ends exactly at the first
chunk boundary, is end-of-list, and points its IV field at the channel's
IV scratch buffer; and on a non-ECB source list no descriptor crosses
the first chunk boundary and exactly one set-iv descriptor exists iff
the run covers that boundary. -/
def BuildInv (cfg : AppendCfg) (o : Nat) (ds : List MucBuf) (o2 : Nat) :
    Prop :=
  o2 = o + sumLens ds ∧
  (∀ d ∈ ds, d.flags.testBit 20 = false) ∧
  (∀ p ∈ withStarts o ds, cfg.cryptlen ≤ p.1 →
     p.2.addr = cfg.pad_addr ∧ p.2.flags.testBit 22 = true) ∧
  (∀ p ∈ withStarts o ds, p.2.flags.testBit 21 = true →
     p.1 + p.2.len = cfg.chunksize ∧
     p.2.flags = MUC_BUF_FLAG_SET_IV + MUC_BUF_FLAG_END_OF_LIST ∧
     p.2.iv_addr = some cfg.iv_addr) ∧
  (cfg.is_dst = false → cfg.ecb = false →
     (∀ p ∈ withStarts o ds, p.1 < cfg.chunksize →
        p.1 + p.2.len ≤ cfg.chunksize) ∧
     ds.countP (fun d => d.flags.testBit 21) =
       (if o < cfg.chunksize ∧ cfg.chunksize ≤ o2 then 1 else 0))

/-! ### Ring-channel push (`_hica_muc_chan_push_n`) -/

/-- Per-channel fields used by push (`struct hica_muc_chan`, channel-n
arm). -/
structure ChanN where
  list_size : Nat
  pad_addr : Nat
  iv_addr : Nat
deriving Repr, DecidableEq

/-- Per-request fields used by push (`struct hica_muc_req_ctx`, channel-n
arm, plus the transform parameters it dereferences). -/
structure ReqCtxN where
  runlen : Nat
  cryptlen : Nat
  chunksize : Nat
  ecb : Bool
  eof : Bool
  src : SgIter
  dst : SgIter
deriving Repr, DecidableEq

/-- Hardware register values `_hica_muc_chan_push_n` reads for its
decisions: `MUC_CHANn_IN_BUF_CNT`, `MUC_CHANn_OUT_BUF_CNT`,
`MUC_CHANn_OUT_LEFT`, `MUC_CHANn_SRC_LST_PTR`, `MUC_CHANn_DST_LST_PTR`. -/
structure HwN where
  in_buf_cnt : Nat
  out_buf_cnt : Nat
  out_left : Nat
  src_lst_ptr : Nat
  dst_lst_ptr : Nat
deriving Repr, DecidableEq

/-- Result of one push call: the C return value, the updated request
context, and the descriptors written to each ring this round together
with the emit counts stored for `_hica_muc_chan_emit_n`. -/
structure PushNOut where
  ret : Int
  ctx : ReqCtxN
  srcWrites : List MucBuf
  dstWrites : List MucBuf
  src_emit_n : Nat
  dst_emit_n : Nat
deriving Repr, DecidableEq

/-- Builder parameters for the source ring of a request. -/
def srcCfg (chan : ChanN) (ctx : ReqCtxN) : AppendCfg :=
  { runlen := ctx.runlen, cryptlen := ctx.cryptlen,
    chunksize := ctx.chunksize, ecb := ctx.ecb, is_dst := false,
    pad_addr := chan.pad_addr, iv_addr := chan.iv_addr,
    list_size := chan.list_size }

/-- Builder parameters for the destination ring of a request. -/
def dstCfg (chan : ChanN) (ctx : ReqCtxN) : AppendCfg :=
  { srcCfg chan ctx with is_dst := true }

/-- The extra descriptor pair `_hica_muc_chan_push_n` writes in the
end-of-frame stall fixup: it points at the channel's shared pad buffer,
is one block long, and carries only the end-of-list flag. -/
def eofFixBuf (chan : ChanN) : MucBuf :=
  { addr := chan.pad_addr, len := MUC_BLOCK_SIZE,
    flags := MUC_BUF_FLAG_END_OF_LIST, iv_addr := none }

/-- Tail of `_hica_muc_chan_push_n` after `src_todo` / `dst_todo` are
fixed: ring-pointer validation (`-EIO` on an out-of-range hardware read
pointer), then either the normal `hica_muc_list_append` round or, when
`eof` was just set, the stall-fixup descriptor pair. -/
def pushNFinish (chan : ChanN) (hw : HwN) (ctx : ReqCtxN)
    (src_todo dst_todo : Bool) : PushNOut :=
  if src_todo = true ∧ chan.list_size ≤ hw.src_lst_ptr then
    ⟨-eIo, ctx, [], [], 0, 0⟩
  else if dst_todo = true ∧ chan.list_size ≤ hw.dst_lst_ptr then
    ⟨-eIo, ctx, [], [], 0, 0⟩
  else if ctx.eof = false then
    match (if src_todo then hica_muc_list_append (srcCfg chan ctx) ctx.src
           else some ([], ctx.src)) with
    | none => ⟨-eFault, ctx, [], [], 0, 0⟩
    | some (sds, sit) =>
      match (if dst_todo then hica_muc_list_append (dstCfg chan ctx) ctx.dst
             else some ([], ctx.dst)) with
      | none => ⟨-eFault, { ctx with src := sit }, sds, [], 0, 0⟩
      | some (dds, dit) =>
        ⟨-eInprogress, { ctx with src := sit, dst := dit }, sds, dds,
         sds.length, dds.length⟩
  else
    ⟨-eInprogress, ctx, [eofFixBuf chan], [eofFixBuf chan], 1, 1⟩

/-- Model of `_hica_muc_chan_push_n`.  The `extra_check` register-readback repairs
only log and rewrite registers, so they are not modelled. -/
def hica_muc_chan_push_n (chan : ChanN) (hw : HwN) (ctx : ReqCtxN) :
    PushNOut :=
  if hw.in_buf_cnt = 0 ∧ hw.out_buf_cnt = 0 ∧ ctx.eof = true then
    ⟨0, ctx, [], [], 0, 0⟩
  else if (hw.in_buf_cnt ≠ 0 ∧ hw.out_buf_cnt ≠ 0) ∨ ctx.eof = true then
    ⟨-eBusy, ctx, [], [], 0, 0⟩
  else if ctx.runlen ≤ ctx.src.offset ∧ ctx.runlen ≤ ctx.dst.offset ∧
      hw.in_buf_cnt = 0 then
    if hw.out_buf_cnt = 0 then
      ⟨0, { ctx with eof := true }, [], [], 0, 0⟩
    else if hw.out_left >>> 24 = 0 then
      ⟨-eBusy, { ctx with eof := true }, [], [], 0, 0⟩
    else
      pushNFinish chan hw { ctx with eof := true } true true
  else
    pushNFinish chan hw ctx
      (decide (hw.in_buf_cnt = 0 ∧ ¬ ctx.runlen ≤ ctx.src.offset))
      (decide (hw.out_buf_cnt = 0 ∧ ¬ ctx.runlen ≤ ctx.dst.offset))

/-! ### Channel ownership slot, dirty-flag wrapper, sweeper, interrupt -/

/-- The channel's atomic request slot (`chan->req`): `NULL` is idle,
`IS_ERR` values are the disabled / processing sentinels, otherwise a
bound request (identified here by a number). -/
inductive ReqSlot
  | idle
  | fault (e : Int)
  | active (r : Nat)
deriving Repr, DecidableEq

/-- Per-channel state seen by the sweeper and interrupt handler. -/
structure SweepChan where
  dirty : Bool
  slot : ReqSlot
deriving Repr, DecidableEq

/-- Model of `hica_muc_chan_push`: returns `-EBUSY` without touching anything if
`dirty` is set (the inner push does not run), otherwise runs the inner
push and sets `dirty` exactly when it returned `-EINPROGRESS`. -/
def chanPushWrap {σ : Type} (inner : σ → Int × σ) (dirty : Bool) (s : σ) :
    Int × Bool × σ :=
  if dirty then (-eBusy, dirty, s)
  else ((inner s).1,
        if (inner s).1 = -eInprogress then true else dirty,
        (inner s).2)

/-- Result of the sweeper's per-channel step. -/
structure ProcOut (σ : Type) where
  chan : SweepChan
  state : σ
  completions : List (Nat × Int)
  emitted : Bool
deriving Repr, DecidableEq

/-- One channel's handling inside `hica_muc_process`: skip idle/sentinel
slots; otherwise claim the request, push, and on `-EBUSY` restore, on
`-EINPROGRESS` restore and emit, and on anything else unprepare, invoke
the completion callback with the return value, and leave the slot idle. -/
def processChan {σ : Type} (inner : σ → Int × σ) (c : SweepChan) (s : σ) :
    ProcOut σ :=
  match c.slot with
  | ReqSlot.active r =>
    let t := chanPushWrap inner c.dirty s
    if t.1 = -eBusy then ⟨⟨t.2.1, ReqSlot.active r⟩, t.2.2, [], false⟩
    else if t.1 = -eInprogress then
      ⟨⟨t.2.1, ReqSlot.active r⟩, t.2.2, [], true⟩
    else ⟨⟨t.2.1, ReqSlot.idle⟩, t.2.2, [(r, t.1)], false⟩
  | _ => ⟨c, s, [], false⟩

/-- The dirty-bit clearing of `hica_muc_handle`: or the high half of the
interrupt status onto the low half and clear `dirty` for every channel
whose bit is set. -/
def hica_muc_handle_clear (intStatus id : Nat) (c : SweepChan) : SweepChan :=
  if (intStatus ||| intStatus >>> MUC_CHAN_NUM).testBit id then
    { c with dirty := false }
  else c

/-- The acquisition step of `hica_muc_alg_encdec` succeeds exactly on an
idle slot (`try_cmpxchg` of `NULL`). -/
def tryClaimSlot : ReqSlot → Bool
  | ReqSlot.idle => true
  | _ => false

/-- Adapter: `_hica_muc_chan_push_n` as a state-transformer on the request
context, with fixed channel parameters and hardware readings. -/
def pushNStep (chan : ChanN) (hw : HwN) : ReqCtxN → Int × ReqCtxN :=
  fun ctx =>
    ((hica_muc_chan_push_n chan hw ctx).ret,
     (hica_muc_chan_push_n chan hw ctx).ctx)

/-! ### Channel allocator (`hica_muc_alg_encdec`, acquisition loop) -/

/-- Model of `hica_muc_req_is_short`: note the comparison is `<=`. -/
def hica_muc_req_is_short (cryptlen small_request : Nat) : Bool :=
  decide (cryptlen ≤ small_request)

/-- The channel-acquisition loop of `hica_muc_alg_encdec`: scan channel
ids from `MUC_CHAN_PKG1` (slow) when the device has no DMA channels or
the request is short, else from `MUC_CHAN_PKGn_MIN`; bind the first idle
channel. -/
def acquireChan (no_dma : Bool) (cryptlen small_request : Nat)
    (idle : Nat → Bool) : Option Nat :=
  (((List.range MUC_CHAN_NUM).drop
      (if no_dma || hica_muc_req_is_short cryptlen small_request
       then MUC_CHAN_PKG1 else MUC_CHAN_PKGn_MIN))).find? idle

/-! ### `hica_muc_alg_encdec` after acquisition, and prepare failures -/

/-- Outcome of an `encrypt` / `decrypt` call: synchronous return value,
final state of the acquired channel's slot, completion callbacks invoked
during the call, number of prepare attempts, and whether the sweeper was
woken. -/
structure EncdecOut where
  ret : Int
  slot : ReqSlot
  completions : List (Nat × Int)
  prepare_calls : Nat
  woke : Bool
deriving Repr, DecidableEq

/-- Tail of `hica_muc_alg_encdec` once a channel has been acquired, as a
function of the value `hica_muc_chan_prepare` returns: on failure the
slot is reset to `NULL` and the error is returned synchronously; on
success the request is stored, the sweeper is woken and `-EINPROGRESS`
is returned. -/
def hica_muc_alg_encdec_tail (r : Nat) (prepRet : Int) : EncdecOut :=
  if prepRet = 0 then ⟨-eInprogress, ReqSlot.active r, [], 1, true⟩
  else ⟨prepRet, ReqSlot.idle, [], 1, false⟩

/-- The DMA-mapping failure paths of `_hica_muc_chan_prepare_n`: a failed
source or destination `dma_map_sg` yields `-EIO` (destination mapping is
skipped when the request is in-place). -/
def hica_muc_chan_prepare_n_map (src_ok dst_ok bidirectional : Bool) : Int :=
  if src_ok = false then -eIo
  else if bidirectional = false ∧ dst_ok = false then -eIo
  else 0

/-! ### `hica_muc_alg_setkey` -/

/-- Standard kernel helper (include/crypto/aes.h, external collaborator):
AES accepts key lengths 16, 24 and 32 bytes. -/
def aes_check_keylen (keylen : Nat) : Int :=
  if keylen = 16 ∨ keylen = 24 ∨ keylen = 32 then 0 else -eInval

/-- Model of `des_check_weakkey_half`: flags a half whose four bytes are all equal
ignoring the parity bit (the loop over `i = 1 .. 3`, unrolled). -/
def des_check_weakkey_half (key : List Nat) : Int :=
  if (key.getD 1 0 ^^^ key.getD 0 0) >>> 1 ≠ 0 then 0
  else if (key.getD 2 0 ^^^ key.getD 0 0) >>> 1 ≠ 0 then 0
  else if (key.getD 3 0 ^^^ key.getD 0 0) >>> 1 ≠ 0 then 0
  else -eInval

/-- Model of `des_check_weakkey`: the C `a ?: b` of the two half checks. -/
def des_check_weakkey (key : List Nat) : Int :=
  if des_check_weakkey_half key ≠ 0 then des_check_weakkey_half key
  else des_check_weakkey_half (key.drop 4)

/-- Table `hica_muc_ctrl_key_maps` as (alg, key-selector, keylen) rows. -/
def hica_muc_ctrl_key_maps : List (Nat × Nat × Nat) :=
  [(MUC_ALG_AES, 2, 32), (MUC_ALG_AES, 1, 24), (MUC_ALG_AES, 0, 16),
   (MUC_ALG_DES, 0, 8), (MUC_ALG_DES3_EDE, 0, 24), (MUC_ALG_DES3_EDE, 3, 16)]

/-- Model of `hica_muc_ctrl_key_lookup` (0 when no row matches). -/
def hica_muc_ctrl_key_lookup (alg keylen : Nat) : Nat :=
  ((hica_muc_ctrl_key_maps.find?
      (fun e => e.1 == alg && e.2.2 == keylen)).map (fun e => e.2.1)).getD 0

/-- Model of `hica_muc_alg_setkey`: on success returns the recorded key copy, key
size and key-selector bits (`ctx->key`, `ctx->keysize`,
`ctx->ctrl.key`). -/
def hica_muc_alg_setkey (alg : Nat) (key : List Nat) (keylen : Nat) :
    Except Int (List Nat × Nat × Nat) :=
  if MUC_KEY_SIZE < keylen then Except.error (-eInval)
  else if alg = MUC_ALG_AES then
    if aes_check_keylen keylen ≠ 0 then Except.error (-eInval)
    else Except.ok (key.take keylen, keylen, hica_muc_ctrl_key_lookup alg keylen)
  else if alg = MUC_ALG_DES then
    if keylen ≠ DES_KEY_SIZE then Except.error (-eInval)
    else if des_check_weakkey key ≠ 0 then Except.error (-eInval)
    else Except.ok (key.take keylen, keylen, hica_muc_ctrl_key_lookup alg keylen)
  else if alg = MUC_ALG_DES3_EDE then
    if keylen ≠ DES3_EDE_KEY_SIZE then Except.error (-eInval)
    else Except.ok (key.take keylen, keylen, hica_muc_ctrl_key_lookup alg keylen)
  else Except.error (-eInval)

/-- Modelled from the spec: the four classic DES weak keys (with parity
bits), named by the claim's phrase "classic DES weak/semi-weak key
patterns"; the weak-key set itself is standard DES material, not code of
this repository. -/
def desWeakKeys : List (List Nat) :=
  [[0x01, 0x01, 0x01, 0x01, 0x01, 0x01, 0x01, 0x01],
   [0xFE, 0xFE, 0xFE, 0xFE, 0xFE, 0xFE, 0xFE, 0xFE],
   [0xE0, 0xE0, 0xE0, 0xE0, 0xF1, 0xF1, 0xF1, 0xF1],
   [0x1F, 0x1F, 0x1F, 0x1F, 0x0E, 0x0E, 0x0E, 0x0E]]

/-- Modelled from the spec: the twelve classic DES semi-weak keys (with
parity bits), named by the claim's phrase "classic DES weak/semi-weak key
patterns". -/
def desSemiWeakKeys : List (List Nat) :=
  [[0x01, 0xFE, 0x01, 0xFE, 0x01, 0xFE, 0x01, 0xFE],
   [0xFE, 0x01, 0xFE, 0x01, 0xFE, 0x01, 0xFE, 0x01],
   [0x1F, 0xE0, 0x1F, 0xE0, 0x0E, 0xF1, 0x0E, 0xF1],
   [0xE0, 0x1F, 0xE0, 0x1F, 0xF1, 0x0E, 0xF1, 0x0E],
   [0x01, 0xE0, 0x01, 0xE0, 0x01, 0xF1, 0x01, 0xF1],
   [0xE0, 0x01, 0xE0, 0x01, 0xF1, 0x01, 0xF1, 0x01],
   [0x1F, 0xFE, 0x1F, 0xFE, 0x0E, 0xFE, 0x0E, 0xFE],
   [0xFE, 0x1F, 0xFE, 0x1F, 0xFE, 0x0E, 0xFE, 0x0E],
   [0x01, 0x1F, 0x01, 0x1F, 0x01, 0x0E, 0x01, 0x0E],
   [0x1F, 0x01, 0x1F, 0x01, 0x0E, 0x01, 0x0E, 0x01],
   [0xE0, 0xFE, 0xE0, 0xFE, 0xF1, 0xFE, 0xF1, 0xFE],
   [0xFE, 0xE0, 0xFE, 0xE0, 0xFE, 0xF1, 0xFE, 0xF1]]

/-! ### Probe channel-availability check (`hica_muc_probe`) -/

/-- The channel mask `hica_muc_probe` builds: channel `id` is usable when
the interrupt-configuration readback has `MUC_INT_CHANn_OUT_BUF(id)`
(bit `8 + id`) set and `id` is not admin-disabled. -/
def mucChanMask (val disable_mask : Nat) : Nat :=
  (List.range MUC_CHAN_NUM).foldl
    (fun m id =>
      if val.testBit (8 + id) && !(disable_mask.testBit id)
      then m ||| (1 <<< id) else m) 0

/-- The availability decision of `hica_muc_probe`: `-ENODEV` when no
channel is usable, `-EINVAL` when only the slow channel is usable and no
channel was admin-disabled; otherwise probing continues with the mask. -/
def hica_muc_probe_chan_check (val disable_mask : Nat) : Except Int Nat :=
  if mucChanMask val disable_mask = 0 then Except.error (-eNodev)
  else if mucChanMask val disable_mask = 1 <<< MUC_CHAN_PKG1 ∧
      disable_mask = 0 then Except.error (-eInval)
  else Except.ok (mucChanMask val disable_mask)

/-! ### Key/IV erasure (`hica_muc_chan_unprepare`)

Register regions are word-indexed total maps; `hica_writel_seq` /
`hica_setl_seq` touch `(len + 3) / 4` words.  The `#ifndef DEBUG` erasures
are modelled as present (a production build).  The flat `inout` buffer's
contents across prepare/push rounds are abstracted as arbitrary maps,
since the erasure zeroes the whole buffer. -/

def wordCount (len : Nat) : Nat := (len + 3) / 4

/-- Write the first `n` words of a region from `g`. -/
def overwrite (g f : Nat → Nat) (n : Nat) : Nat → Nat :=
  fun i => if i < n then g i else f i

/-- Erasure `hica_setl_seq(0, ..., len)`. -/
def eraseWords (f : Nat → Nat) (n : Nat) : Nat → Nat :=
  fun i => if i < n then 0 else f i

def regionZero : Nat → Nat := fun _ => 0

/-- Slow-channel register/memory regions holding key or IV material:
`MUC_CHANn_KEY0(0)`, `MUC_CHAN0_IV_IN0`, `MUC_CHANn_IV_OUT0(0)`,
`MUC_CHAN0_DATA_IN0` and the flat `inout` buffer. -/
structure Chan0Regs where
  key : Nat → Nat
  iv_in : Nat → Nat
  iv_out : Nat → Nat
  data_in : Nat → Nat
  inout : Nat → Nat

def chan0ZeroRegs : Chan0Regs :=
  ⟨regionZero, regionZero, regionZero, regionZero, regionZero⟩

/-- Writes of `_hica_muc_chan_prepare_0` plus the key write of
`hica_muc_chan_prepare` (skipped for a key-ladder key, `keysize = 0`). -/
def hica_muc_chan_prepare_0_regs (ecb : Bool) (ivsize keysize : Nat)
    (iv key data : Nat → Nat) (r : Chan0Regs) : Chan0Regs :=
  { r with
    iv_in := if ecb then r.iv_in else overwrite iv r.iv_in (wordCount ivsize)
    inout := data
    key := if keysize = 0 then r.key
           else overwrite key r.key (wordCount keysize) }

/-- Writes during the push rounds of a slow-channel request: the data-in
registers (`_hica_muc_chan_push_0`), the ping-pong `inout` rewrites, and
the hardware's IV-output update (within the IV size, only for non-ECB
modes which are the only ones the hardware latches an IV for). -/
def hica_muc_chan_run_0_regs (ecb : Bool) (ivsize chunksize : Nat)
    (blocks hwiv inout2 : Nat → Nat) (r : Chan0Regs) : Chan0Regs :=
  { r with
    data_in := overwrite blocks r.data_in (wordCount chunksize)
    inout := inout2
    iv_out := if ecb then r.iv_out
              else overwrite hwiv r.iv_out (wordCount ivsize) }

/-- Erasures of `_hica_muc_chan_unprepare_0`: data-in registers, IV-input
registers (non-ECB) and the whole flat buffer. -/
def hica_muc_chan_unprepare_0_regs (ecb : Bool) (ivsize chunksize : Nat)
    (r : Chan0Regs) : Chan0Regs :=
  { r with
    data_in := eraseWords r.data_in (wordCount chunksize)
    iv_in := if ecb then r.iv_in else eraseWords r.iv_in (wordCount ivsize)
    inout := regionZero }

/-- Model of `hica_muc_chan_unprepare` for the slow channel: key registers (when a
raw key was used), then `_hica_muc_chan_unprepare_0`, then the IV-output
registers (non-ECB). -/
def hica_muc_chan_unprepare_regs (ecb : Bool) (ivsize chunksize keysize : Nat)
    (r : Chan0Regs) : Chan0Regs :=
  let r1 := if keysize = 0 then r
            else { r with key := eraseWords r.key (wordCount keysize) }
  let r2 := hica_muc_chan_unprepare_0_regs ecb ivsize chunksize r1
  if ecb then r2
  else { r2 with iv_out := eraseWords r2.iv_out (wordCount ivsize) }

/-- Ring-channel regions holding key or IV material: key registers,
IV-output registers, and the DMA-visible IV scratch buffer. -/
structure ChanNRegs where
  key : Nat → Nat
  iv_out : Nat → Nat
  iv_scratch : Nat → Nat

def chanNZeroRegs : ChanNRegs := ⟨regionZero, regionZero, regionZero⟩

/-- Writes of `_hica_muc_chan_prepare_n` (IV copy into the scratch buffer
for non-ECB) plus the key write of `hica_muc_chan_prepare`. -/
def hica_muc_chan_prepare_n_regs (ecb : Bool) (keysize : Nat)
    (iv key : Nat → Nat) (r : ChanNRegs) : ChanNRegs :=
  { r with
    iv_scratch := if ecb then r.iv_scratch
                  else overwrite iv r.iv_scratch (wordCount MUC_IV_SIZE)
    key := if keysize = 0 then r.key
           else overwrite key r.key (wordCount keysize) }

/-- Hardware IV-output update during a ring-channel request (within the
IV size, non-ECB only). -/
def hica_muc_chan_run_n_regs (ecb : Bool) (ivsize : Nat) (hwiv : Nat → Nat)
    (r : ChanNRegs) : ChanNRegs :=
  { r with
    iv_out := if ecb then r.iv_out
              else overwrite hwiv r.iv_out (wordCount ivsize) }

/-- Model of `hica_muc_chan_unprepare` for a ring channel: key registers, the
`memzero_explicit` of the IV scratch buffer (non-ECB,
`_hica_muc_chan_unprepare_n`), then the IV-output registers (non-ECB). -/
def hica_muc_chan_unprepare_n_regs (ecb : Bool) (ivsize keysize : Nat)
    (r : ChanNRegs) : ChanNRegs :=
  let r1 := if keysize = 0 then r
            else { r with key := eraseWords r.key (wordCount keysize) }
  let r2 := { r1 with
              iv_scratch := if ecb then r1.iv_scratch
                            else eraseWords r1.iv_scratch
                              (wordCount MUC_IV_SIZE) }
  if ecb then r2
  else { r2 with iv_out := eraseWords r2.iv_out (wordCount ivsize) }

/-! ## Theorems -/

theorem sgIterInc_offset (it : SgIter) (len : Nat) :
    (sgIterInc it len).offset = it.offset + len := rfl

theorem sumLens_nil : sumLens [] = 0 := rfl

theorem sumLens_cons (d : MucBuf) (ds : List MucBuf) :
    sumLens (d :: ds) = d.len + sumLens ds := by
  simp [sumLens]

theorem sumLens_append (l1 l2 : List MucBuf) :
    sumLens (l1 ++ l2) = sumLens l1 + sumLens l2 := by
  simp [sumLens]

theorem withStarts_cons (o : Nat) (d : MucBuf) (ds : List MucBuf) :
    withStarts o (d :: ds) = (o, d) :: withStarts (o + d.len) ds := rfl

theorem withStarts_append (l1 l2 : List MucBuf) (o : Nat) :
    withStarts o (l1 ++ l2) =
      withStarts o l1 ++ withStarts (o + sumLens l1) l2 := by
  induction l1 generalizing o with
  | nil => simp [withStarts, sumLens]
  | cons d t ih =>
    simp only [List.cons_append, withStarts_cons, ih, sumLens_cons]
    rw [Nat.add_assoc]

theorem appendFinish_spec (cfg : AppendCfg) (iter : SgIter)
    (addr len flags : Nat)
    (hfl : flags = MUC_BUF_FLAG_END_OF_LIST ∨ flags = 0)
    (b : MucBuf) (it2 : SgIter)
    (h : appendFinish cfg iter addr len flags = (b, it2)) :
    it2.offset = iter.offset + b.len ∧
    b.addr = addr ∧
    b.flags.testBit 20 = false ∧
    (flags = MUC_BUF_FLAG_END_OF_LIST → b.flags.testBit 22 = true) ∧
    (b.flags.testBit 21 = true →
       iter.offset + b.len = cfg.chunksize ∧
       b.flags = MUC_BUF_FLAG_SET_IV + MUC_BUF_FLAG_END_OF_LIST ∧
       b.iv_addr = some cfg.iv_addr) ∧
    (cfg.chunksize ≤ iter.offset → b.flags.testBit 21 = false) ∧
    (cfg.is_dst = false → cfg.ecb = false → iter.offset < cfg.chunksize →
       (iter.offset + b.len = cfg.chunksize ∧ b.flags.testBit 21 = true) ∨
       (iter.offset + b.len < cfg.chunksize ∧ b.flags.testBit 21 = false)) := by
  unfold appendFinish at h
  split at h
  next hcon =>
    obtain ⟨hc1, hc2, hc3, hc4⟩ := hcon
    injection h with hb hit
    subst hb; subst hit
    refine ⟨sgIterInc_offset .., rfl, ?_, fun _ => ?_,
      fun _ => ⟨?_, rfl, rfl⟩, fun hle => absurd hle (by omega),
      fun _ _ _ => Or.inl ⟨?_, ?_⟩⟩
    · show (MUC_BUF_FLAG_SET_IV + MUC_BUF_FLAG_END_OF_LIST).testBit 20 = false
      decide
    · show (MUC_BUF_FLAG_SET_IV + MUC_BUF_FLAG_END_OF_LIST).testBit 22 = true
      decide
    · show iter.offset + (cfg.chunksize - iter.offset) = cfg.chunksize
      omega
    · show iter.offset + (cfg.chunksize - iter.offset) = cfg.chunksize
      omega
    · show (MUC_BUF_FLAG_SET_IV + MUC_BUF_FLAG_END_OF_LIST).testBit 21 = true
      decide
  next hcon =>
    injection h with hb hit
    subst hb; subst hit
    have hb21 : flags.testBit 21 = false := by
      rcases hfl with rfl | rfl <;> decide
    have hb20 : flags.testBit 20 = false := by
      rcases hfl with rfl | rfl <;> decide
    refine ⟨sgIterInc_offset .., rfl, hb20, ?_, ?_, fun _ => hb21,
      fun hd he ho => ?_⟩
    · intro hfe
      show flags.testBit 22 = true
      subst hfe; decide
    · intro ht
      exact absurd (ht : flags.testBit 21 = true) (by simp [hb21])
    · refine Or.inr ⟨?_, hb21⟩
      have hnc : ¬ cfg.chunksize ≤ iter.offset + len := fun hcross =>
        hcon ⟨hd, he, ho, hcross⟩
      show iter.offset + len < cfg.chunksize
      omega

theorem appendStep_spec (cfg : AppendCfg) (iter : SgIter) (b : MucBuf)
    (it2 : SgIter) (h : appendStep cfg iter = some (b, it2)) :
    it2.offset = iter.offset + b.len ∧
    b.flags.testBit 20 = false ∧
    (cfg.cryptlen ≤ iter.offset →
       b.addr = cfg.pad_addr ∧ b.flags.testBit 22 = true) ∧
    (b.flags.testBit 21 = true →
       iter.offset + b.len = cfg.chunksize ∧
       b.flags = MUC_BUF_FLAG_SET_IV + MUC_BUF_FLAG_END_OF_LIST ∧
       b.iv_addr = some cfg.iv_addr) ∧
    (cfg.chunksize ≤ iter.offset → b.flags.testBit 21 = false) ∧
    (cfg.is_dst = false → cfg.ecb = false → iter.offset < cfg.chunksize →
       (iter.offset + b.len = cfg.chunksize ∧ b.flags.testBit 21 = true) ∨
       (iter.offset + b.len < cfg.chunksize ∧ b.flags.testBit 21 = false)) := by
  unfold appendStep at h
  split at h
  next hpad =>
    injection h with h2
    have hs := appendFinish_spec cfg iter cfg.pad_addr
      (cfg.runlen - iter.offset) MUC_BUF_FLAG_END_OF_LIST (Or.inl rfl)
      b it2 h2
    exact ⟨hs.1, hs.2.2.1,
      fun _ => ⟨hs.2.1, hs.2.2.2.1 rfl⟩,
      hs.2.2.2.2.1, hs.2.2.2.2.2.1, hs.2.2.2.2.2.2⟩
  next hpad =>
    split at h
    next hvalid =>
      injection h with h2
      have hs := appendFinish_spec cfg iter (sgIterAddr iter)
        (min (min (sgIterLen iter) (cfg.runlen - iter.offset)) MUC_BUF_LEN_MAX)
        _ (by split <;> simp) b it2 h2
      exact ⟨hs.1, hs.2.2.1, fun hc => absurd hc hpad,
        hs.2.2.2.2.1, hs.2.2.2.2.2.1, hs.2.2.2.2.2.2⟩
    next hvalid => exact absurd h (by simp)

theorem BuildInv_nil (cfg : AppendCfg) (o : Nat) : BuildInv cfg o [] o := by
  refine ⟨by simp [sumLens], by simp, by simp [withStarts], by simp [withStarts],
    fun _ _ => ⟨by simp [withStarts], ?_⟩⟩
  simp only [List.countP_nil]
  split
  next hcon => omega
  next hcon => rfl

theorem BuildInv_step (cfg : AppendCfg) (o : Nat) (b : MucBuf)
    (ds : List MucBuf) (o2 : Nat) (iter it1 : SgIter)
    (ho : iter.offset = o)
    (hstep : appendStep cfg iter = some (b, it1))
    (hinv : BuildInv cfg it1.offset ds o2) :
    BuildInv cfg o (b :: ds) o2 := by
  obtain ⟨hsum, hb20, hpad, hiv, hgate⟩ := hinv
  have hs := appendStep_spec cfg iter b it1 hstep
  have ho1 : it1.offset = o + b.len := by rw [hs.1, ho]
  rw [ho1] at hsum hpad hiv hgate
  refine ⟨?_, ?_, ?_, ?_, ?_⟩
  · rw [sumLens_cons]; omega
  · intro d hd
    rcases List.mem_cons.mp hd with rfl | hd2
    · exact hs.2.1
    · exact hb20 d hd2
  · intro p hp
    rw [withStarts_cons] at hp
    rcases List.mem_cons.mp hp with rfl | hp2
    · intro hc
      have hc2 : cfg.cryptlen ≤ iter.offset := by omega
      exact hs.2.2.1 hc2
    · exact hpad p hp2
  · intro p hp
    rw [withStarts_cons] at hp
    rcases List.mem_cons.mp hp with rfl | hp2
    · intro ht
      have ht2 : b.flags.testBit 21 = true := ht
      obtain ⟨he, hf, ha⟩ := hs.2.2.2.1 ht2
      exact ⟨by show o + b.len = cfg.chunksize; omega, hf, ha⟩
    · exact hiv p hp2
  · intro hd he
    obtain ⟨hcross, hcount⟩ := hgate hd he
    constructor
    · intro p hp
      rw [withStarts_cons] at hp
      rcases List.mem_cons.mp hp with rfl | hp2
      · intro hlt
        have hlt2 : o < cfg.chunksize := hlt
        show o + b.len ≤ cfg.chunksize
        rcases hs.2.2.2.2.2 hd he (by omega) with ⟨heq, _⟩ | ⟨hlt3, _⟩ <;>
          omega
      · exact hcross p hp2
    · by_cases hbit : b.flags.testBit 21 = true
      · have heq : iter.offset + b.len = cfg.chunksize := (hs.2.2.2.1 hbit).1
        have hlt : iter.offset < cfg.chunksize := by
          by_contra hge2
          have hf := hs.2.2.2.2.1 (by omega)
          rw [hbit] at hf
          exact absurd hf (by decide)
        rw [List.countP_cons_of_pos (fun d => d.flags.testBit 21) ds
          (by simpa using hbit), hcount]
        split_ifs <;> omega
      · have hbit2 : ¬ (fun d => d.flags.testBit 21) b = true := hbit
        rw [List.countP_cons_of_neg (fun d => d.flags.testBit 21) ds hbit2,
          hcount]
        by_cases hob : o < cfg.chunksize
        · rcases hs.2.2.2.2.2 hd he (by omega) with ⟨heq, hb1⟩ | ⟨hlt3, hb1⟩
          · exact absurd hb1 hbit
          · split_ifs <;> omega
        · split_ifs <;> omega

theorem listAppendRec_spec (cfg : AppendCfg) :
    ∀ (k : Nat) (iter : SgIter) (ds : List MucBuf) (itf : SgIter),
      listAppendRec cfg k iter = some (ds, itf) →
      BuildInv cfg iter.offset ds itf.offset := by
  intro k
  induction k with
  | zero =>
    intro iter ds itf h
    simp only [listAppendRec, Option.some.injEq, Prod.mk.injEq] at h
    obtain ⟨rfl, rfl⟩ := h
    exact BuildInv_nil cfg iter.offset
  | succ k ih =>
    intro iter ds itf h
    rw [listAppendRec] at h
    split at h
    next hlt =>
      split at h
      next hstep => exact absurd h (by simp)
      next b it1 hstep =>
        split at h
        next hrec => exact absurd h (by simp)
        next ds2 itf2 hrec =>
          simp only [Option.some.injEq, Prod.mk.injEq] at h
          obtain ⟨rfl, rfl⟩ := h
          exact BuildInv_step cfg iter.offset b ds2 itf2.offset iter it1 rfl
            hstep (ih it1 ds2 itf2 hrec)
    next hlt =>
      simp only [Option.some.injEq, Prod.mk.injEq] at h
      obtain ⟨rfl, rfl⟩ := h
      exact BuildInv_nil cfg iter.offset

theorem BuildInv_append (cfg : AppendCfg) (o o1 o2 : Nat)
    (ds1 ds2 : List MucBuf)
    (h1 : BuildInv cfg o ds1 o1) (h2 : BuildInv cfg o1 ds2 o2) :
    BuildInv cfg o (ds1 ++ ds2) o2 := by
  obtain ⟨hs1, hb1, hp1, hi1, hg1⟩ := h1
  obtain ⟨hs2, hb2, hp2, hi2, hg2⟩ := h2
  have hws : withStarts o (ds1 ++ ds2) =
      withStarts o ds1 ++ withStarts o1 ds2 := by
    rw [withStarts_append, hs1]
  refine ⟨?_, ?_, ?_, ?_, ?_⟩
  · rw [sumLens_append]; omega
  · intro d hd
    rcases List.mem_append.mp hd with hd2 | hd2
    · exact hb1 d hd2
    · exact hb2 d hd2
  · intro p hp
    rw [hws] at hp
    rcases List.mem_append.mp hp with hq | hq
    · exact hp1 p hq
    · exact hp2 p hq
  · intro p hp
    rw [hws] at hp
    rcases List.mem_append.mp hp with hq | hq
    · exact hi1 p hq
    · exact hi2 p hq
  · intro hd he
    obtain ⟨hc1, hn1⟩ := hg1 hd he
    obtain ⟨hc2, hn2⟩ := hg2 hd he
    constructor
    · intro p hp
      rw [hws] at hp
      rcases List.mem_append.mp hp with hq | hq
      · exact hc1 p hq
      · exact hc2 p hq
    · rw [List.countP_append, hn1, hn2]
      have hmono1 : o ≤ o1 := by rw [hs1]; omega
      have hmono2 : o1 ≤ o2 := by rw [hs2]; omega
      split_ifs <;> omega

theorem emitAll_spec (cfg : AppendCfg) :
    ∀ (fuel : Nat) (iter : SgIter) (ds : List MucBuf),
      emitAll cfg fuel iter = some ds →
      BuildInv cfg iter.offset ds (iter.offset + sumLens ds) ∧
      cfg.runlen ≤ iter.offset + sumLens ds := by
  intro fuel
  induction fuel with
  | zero =>
    intro iter ds h
    rw [emitAll] at h
    split at h
    next hge =>
      simp only [Option.some.injEq] at h
      subst h
      exact ⟨by simpa [sumLens] using BuildInv_nil cfg iter.offset,
        by simp [sumLens]; omega⟩
    next hge => exact absurd h (by simp)
  | succ fuel ih =>
    intro iter ds h
    rw [emitAll] at h
    split at h
    next hge =>
      simp only [Option.some.injEq] at h
      subst h
      exact ⟨by simpa [sumLens] using BuildInv_nil cfg iter.offset,
        by simp [sumLens]; omega⟩
    next hge =>
      split at h
      next hgo => exact absurd h (by simp)
      next ds1 it1 hgo =>
        split at h
        next hrec => exact absurd h (by simp)
        next ds2 hrec =>
          simp only [Option.some.injEq] at h
          subst h
          have hI1 : BuildInv cfg iter.offset ds1 it1.offset :=
            listAppendRec_spec cfg cfg.list_size iter ds1 it1 hgo
          obtain ⟨hI2, hcov⟩ := ih it1 ds2 hrec
          have ho1 : it1.offset = iter.offset + sumLens ds1 := hI1.1
          constructor
          · have hApp := BuildInv_append cfg iter.offset it1.offset
              (it1.offset + sumLens ds2) ds1 ds2 hI1 hI2
            rw [sumLens_append]
            rw [ho1] at hApp
            have hoeq : iter.offset + sumLens ds1 + sumLens ds2 =
                iter.offset + (sumLens ds1 + sumLens ds2) := by omega
            rw [← hoeq]
            exact hApp
          · rw [sumLens_append]
            omega

/-- C5: for every non-ECB request whose first source scatter node extends
past the first chunk-size boundary (and, as for any request the ring
builder processes, a positive chunk size and a padded run length of at
least one chunk — `runlen = ALIGN(cryptlen, chunksize)` with
`cryptlen > 0`), the emitted source descriptor list contains exactly one
descriptor carrying the set-iv flag; that descriptor ends precisely at the
chunk boundary, is marked end-of-list, and points its IV field at the
channel's IV-scratch buffer; and no source descriptor crosses the
boundary. -/
theorem C5_iv_boundary_split (cfg : AppendCfg) (node : SgNode)
    (rest : List SgNode) (fuel : Nat) (ds : List MucBuf)
    (hecb : cfg.ecb = false) (hsrc : cfg.is_dst = false)
    (hchunk : 0 < cfg.chunksize) (hrun : cfg.chunksize ≤ cfg.runlen)
    (hnode : cfg.chunksize < node.len)
    (hemit : emitAll cfg fuel (sgIterInit (node :: rest)) = some ds) :
    ds.countP (fun d => d.flags.testBit 21) = 1 ∧
    (∀ p ∈ withStarts 0 ds, p.2.flags.testBit 21 = true →
       p.1 + p.2.len = cfg.chunksize ∧ p.2.flags.testBit 22 = true ∧
       p.2.iv_addr = some cfg.iv_addr) ∧
    (∀ p ∈ withStarts 0 ds, p.1 < cfg.chunksize →
       p.1 + p.2.len ≤ cfg.chunksize) := by
  obtain ⟨hinv, hcov⟩ :=
    emitAll_spec cfg fuel (sgIterInit (node :: rest)) ds hemit
  have h0 : (sgIterInit (node :: rest)).offset = 0 := rfl
  rw [h0] at hinv hcov
  obtain ⟨hsum, hb20, hpad, hiv, hgate⟩ := hinv
  obtain ⟨hcross, hcount⟩ := hgate hsrc hecb
  refine ⟨?_, ?_, hcross⟩
  · rw [hcount, if_pos ⟨hchunk, by omega⟩]
  · intro p hp ht
    obtain ⟨he, hf, ha⟩ := hiv p hp ht
    refine ⟨he, ?_, ha⟩
    rw [hf]
    decide

/-- Witness for C5: an AES-CBC-shaped request (16-byte chunks, 32 bytes of
data) whose single scatter node spans both chunks; the builder splits it
at offset 16 with set-iv plus end-of-list. -/
theorem C5_iv_boundary_split_witness :
    emitAll ⟨32, 32, 16, false, false, 0xAA0, 0xBB0, 15⟩ 40
        (sgIterInit [⟨0x2000, 32⟩]) =
      some [⟨0x2000, 16, MUC_BUF_FLAG_SET_IV + MUC_BUF_FLAG_END_OF_LIST,
              some 0xBB0⟩,
            ⟨0x2010, 16, MUC_BUF_FLAG_END_OF_LIST, none⟩] ∧
    (List.countP (fun d => d.flags.testBit 21)
        ([⟨0x2000, 16, MUC_BUF_FLAG_SET_IV + MUC_BUF_FLAG_END_OF_LIST,
            some 0xBB0⟩,
          ⟨0x2010, 16, MUC_BUF_FLAG_END_OF_LIST, none⟩] : List MucBuf) = 1 ∧
     (∀ p ∈ withStarts 0
          ([⟨0x2000, 16, MUC_BUF_FLAG_SET_IV + MUC_BUF_FLAG_END_OF_LIST,
              some 0xBB0⟩,
            ⟨0x2010, 16, MUC_BUF_FLAG_END_OF_LIST, none⟩] : List MucBuf),
        p.2.flags.testBit 21 = true →
        p.1 + p.2.len = 16 ∧ p.2.flags.testBit 22 = true ∧
        p.2.iv_addr = some 0xBB0) ∧
     (∀ p ∈ withStarts 0
          ([⟨0x2000, 16, MUC_BUF_FLAG_SET_IV + MUC_BUF_FLAG_END_OF_LIST,
              some 0xBB0⟩,
            ⟨0x2010, 16, MUC_BUF_FLAG_END_OF_LIST, none⟩] : List MucBuf),
        p.1 < 16 → p.1 + p.2.len ≤ 16)) :=
  ⟨by decide,
   C5_iv_boundary_split ⟨32, 32, 16, false, false, 0xAA0, 0xBB0, 15⟩
     ⟨0x2000, 32⟩ [] 40
     ([⟨0x2000, 16, MUC_BUF_FLAG_SET_IV + MUC_BUF_FLAG_END_OF_LIST,
         some 0xBB0⟩,
       ⟨0x2010, 16, MUC_BUF_FLAG_END_OF_LIST, none⟩] : List MucBuf)
     rfl rfl (by decide) (by decide) (by decide) (by decide)⟩

/-- C10 (amended): no descriptor emitted by the ring builder carries the
dummy flag (bit 20); stream-padding descriptors (those starting at or past
`cryptlen`) point at the channel's shared pad buffer and carry the
end-of-list flag; and the end-of-frame stall-fixup descriptor points at
the pad buffer with exactly the end-of-list flag (so neither dummy nor
set-iv). -/
theorem C10_no_dummy_flag (cfg : AppendCfg) (fuel : Nat) (iter : SgIter)
    (ds : List MucBuf) (chan : ChanN)
    (hemit : emitAll cfg fuel iter = some ds) :
    (∀ d ∈ ds, d.flags.testBit 20 = false) ∧
    (∀ p ∈ withStarts iter.offset ds, cfg.cryptlen ≤ p.1 →
       p.2.addr = cfg.pad_addr ∧ p.2.flags.testBit 22 = true) ∧
    ((eofFixBuf chan).addr = chan.pad_addr ∧
     (eofFixBuf chan).flags = MUC_BUF_FLAG_END_OF_LIST ∧
     (eofFixBuf chan).flags.testBit 20 = false ∧
     (eofFixBuf chan).flags.testBit 21 = false) := by
  obtain ⟨hinv, _⟩ := emitAll_spec cfg fuel iter ds hemit
  refine ⟨hinv.2.1, hinv.2.2.1, rfl, rfl, ?_, ?_⟩
  · show MUC_BUF_FLAG_END_OF_LIST.testBit 20 = false
    decide
  · show MUC_BUF_FLAG_END_OF_LIST.testBit 21 = false
    decide

/-- Counterexample to C10 as stated: for a non-ECB source list with
`cryptlen = 4` and a 16-byte chunk, the single stream-padding descriptor
(starting at offset 4 = cryptlen, pointing at the pad buffer 0xAA0)
carries set-iv in addition to end-of-list, so padding descriptors do not
always carry *only* the end-of-list flag. -/
theorem C10_counterexample :
    emitAll ⟨16, 4, 16, false, false, 0xAA0, 0xBB0, 15⟩ 40
        (sgIterInit [⟨0x3000, 4⟩]) =
      some [⟨0x3000, 4, 0, none⟩,
            ⟨0xAA0, 12, MUC_BUF_FLAG_SET_IV + MUC_BUF_FLAG_END_OF_LIST,
             some 0xBB0⟩] ∧
    (4 : Nat) ≤ 4 ∧
    MUC_BUF_FLAG_SET_IV + MUC_BUF_FLAG_END_OF_LIST ≠
      MUC_BUF_FLAG_END_OF_LIST := by
  decide

/-- Counterexample to C1 as stated: a request whose `cryptlen` equals the
short-request threshold is *at* the threshold, yet `hica_muc_req_is_short`
uses `<=`, so with every channel idle the allocator binds the slow channel
(id 0 = `MUC_CHAN_PKG1`) instead of a ring channel. -/
theorem C1_counterexample :
    hica_muc_req_is_short 256 256 = true ∧
    acquireChan false 256 256 (fun _ => true) = some MUC_CHAN_PKG1 ∧
    MUC_CHAN_PKG1 < MUC_CHAN_PKGn_MIN := by
  decide

/-- C1 (amended): on a device with DMA channels, when the slow channel and
at least one ring channel are idle, a request with `cryptlen` at or below
the threshold is bound to the slow channel, and a request strictly above
the threshold is bound to a ring channel. -/
theorem C1_allocator (cryptlen small_request : Nat) (idle : Nat → Bool)
    (h0 : idle 0 = true)
    (hring : ∃ j, 1 ≤ j ∧ j < MUC_CHAN_NUM ∧ idle j = true) :
    (cryptlen ≤ small_request →
       acquireChan false cryptlen small_request idle = some MUC_CHAN_PKG1) ∧
    (small_request < cryptlen →
       ∃ j, acquireChan false cryptlen small_request idle = some j ∧
         MUC_CHAN_PKGn_MIN ≤ j ∧ j < MUC_CHAN_NUM ∧ idle j = true) := by
  constructor
  · intro hle
    have hshort : hica_muc_req_is_short cryptlen small_request = true := by
      simp [hica_muc_req_is_short, hle]
    have hrange : List.range MUC_CHAN_NUM = [0, 1, 2, 3, 4, 5, 6, 7] := by
      decide
    simp [acquireChan, hshort, hrange, MUC_CHAN_PKG1, List.find?, h0]
  · intro hgt
    have hshort : hica_muc_req_is_short cryptlen small_request = false := by
      simp only [hica_muc_req_is_short, decide_eq_false_iff_not]
      omega
    have hdrop : (List.range MUC_CHAN_NUM).drop MUC_CHAN_PKGn_MIN =
        [1, 2, 3, 4, 5, 6, 7] := by decide
    obtain ⟨j, hj1, hj8, hjid⟩ := hring
    have hj8n : j < 8 := hj8
    have hmem : j ∈ (List.range MUC_CHAN_NUM).drop MUC_CHAN_PKGn_MIN := by
      rw [hdrop]
      simp only [List.mem_cons, List.not_mem_nil, or_false]
      omega
    have hsome :
        (((List.range MUC_CHAN_NUM).drop MUC_CHAN_PKGn_MIN).find? idle).isSome
          = true := by
      rw [List.find?_isSome]
      exact ⟨j, hmem, hjid⟩
    obtain ⟨a, ha⟩ := Option.isSome_iff_exists.mp hsome
    have hamem := List.mem_of_find?_eq_some ha
    rw [hdrop] at hamem
    simp only [List.mem_cons, List.not_mem_nil, or_false] at hamem
    refine ⟨a, ?_, ?_, ?_, List.find?_some ha⟩
    · simpa [acquireChan, hshort] using ha
    · show 1 ≤ a
      omega
    · show a < 8
      omega

/-- Witness for C1 (amended): with every channel idle and threshold 256, a
100-byte request is bound to the slow channel and a 300-byte request to a
ring channel. -/
theorem C1_allocator_witness :
    acquireChan false 100 256 (fun _ => true) = some MUC_CHAN_PKG1 ∧
    (∃ j, acquireChan false 300 256 (fun _ => true) = some j ∧
       MUC_CHAN_PKGn_MIN ≤ j ∧ j < MUC_CHAN_NUM ∧ (fun _ => true) j = true) :=
  ⟨(C1_allocator 100 256 (fun _ => true) rfl ⟨1, by decide⟩).1 (by decide),
   (C1_allocator 300 256 (fun _ => true) rfl ⟨1, by decide⟩).2 (by decide)⟩

/-- Counterexample to C2 as stated: with all source descriptors consumed
(`src.offset = runlen`, hardware source count 0), the destination not
fully drained (hardware destination count 1), and the hardware bytes-left
counter (`MUC_CHANn_OUT_LEFT >> 24`) reading zero, push does *not* inject
the fixup descriptor pair: it returns `-EBUSY` with no ring writes (it
does mark `eof`).  The injection happens only when that counter reads
nonzero. -/
theorem C2_counterexample :
    hica_muc_chan_push_n ⟨15, 0xAA0, 0xBB0⟩
        ⟨0, 1, 0, 0, 0⟩
        ⟨16, 16, 16, false, false, ⟨[], 0, 16⟩, ⟨[], 0, 16⟩⟩ =
      ⟨-eBusy, ⟨16, 16, 16, false, true, ⟨[], 0, 16⟩, ⟨[], 0, 16⟩⟩,
       [], [], 0, 0⟩ := by
  decide

/-- C2 (amended): on a ring channel with the stream not yet marked ended,
all source descriptors consumed, the destination not fully drained, and
in-range ring pointers, push marks the stream as at its true end and: if
the hardware bytes-left counter reads *nonzero* it injects exactly one
extra pad-source / pad-destination descriptor pair (one block each,
end-of-list only) and returns in-progress; if the counter reads zero it
returns busy with no injection. -/
theorem C2_eof_stall_fixup (chan : ChanN) (hw : HwN) (ctx : ReqCtxN)
    (heof : ctx.eof = false)
    (hsrc_done : ctx.runlen ≤ ctx.src.offset)
    (hdst_done : ctx.runlen ≤ ctx.dst.offset)
    (hsn : hw.in_buf_cnt = 0)
    (hdn : hw.out_buf_cnt ≠ 0)
    (hsp : hw.src_lst_ptr < chan.list_size)
    (hdp : hw.dst_lst_ptr < chan.list_size) :
    (hw.out_left >>> 24 ≠ 0 →
       hica_muc_chan_push_n chan hw ctx =
         ⟨-eInprogress, { ctx with eof := true },
          [eofFixBuf chan], [eofFixBuf chan], 1, 1⟩) ∧
    (hw.out_left >>> 24 = 0 →
       hica_muc_chan_push_n chan hw ctx =
         ⟨-eBusy, { ctx with eof := true }, [], [], 0, 0⟩) := by
  have hns : ¬ (hw.in_buf_cnt = 0 ∧ hw.out_buf_cnt = 0 ∧ ctx.eof = true) := by
    rintro ⟨_, h2, _⟩
    exact hdn h2
  have hng : ¬ ((hw.in_buf_cnt ≠ 0 ∧ hw.out_buf_cnt ≠ 0) ∨ ctx.eof = true) := by
    rintro (⟨h1, _⟩ | h2)
    · exact h1 hsn
    · rw [heof] at h2
      exact absurd h2 (by decide)
  have hA : ¬ (true = true ∧ chan.list_size ≤ hw.src_lst_ptr) := by
    rintro ⟨_, hle⟩
    omega
  have hB : ¬ (true = true ∧ chan.list_size ≤ hw.dst_lst_ptr) := by
    rintro ⟨_, hle⟩
    omega
  have hC : ¬ (({ ctx with eof := true } : ReqCtxN).eof = false) := by
    show ¬ (true = false)
    decide
  constructor
  · intro hleft
    unfold hica_muc_chan_push_n
    rw [if_neg hns, if_neg hng, if_pos ⟨hsrc_done, hdst_done, hsn⟩,
      if_neg hdn, if_neg hleft]
    unfold pushNFinish
    rw [if_neg hA, if_neg hB, if_neg hC]
  · intro hleft
    unfold hica_muc_chan_push_n
    rw [if_neg hns, if_neg hng, if_pos ⟨hsrc_done, hdst_done, hsn⟩,
      if_neg hdn, if_pos hleft]

/-- Witness for C2 (amended): concrete stuck state with bytes-left 1
(register value `0x01000000`); the fixup pair is injected. -/
theorem C2_eof_stall_fixup_witness :
    hica_muc_chan_push_n ⟨15, 0xAA0, 0xBB0⟩
        ⟨0, 1, 0x01000000, 0, 0⟩
        ⟨16, 16, 16, false, false, ⟨[], 0, 16⟩, ⟨[], 0, 16⟩⟩ =
      ⟨-eInprogress,
       { (⟨16, 16, 16, false, false, ⟨[], 0, 16⟩, ⟨[], 0, 16⟩⟩ : ReqCtxN)
         with eof := true },
       [eofFixBuf ⟨15, 0xAA0, 0xBB0⟩], [eofFixBuf ⟨15, 0xAA0, 0xBB0⟩],
       1, 1⟩ :=
  (C2_eof_stall_fixup ⟨15, 0xAA0, 0xBB0⟩ ⟨0, 1, 0x01000000, 0, 0⟩
    ⟨16, 16, 16, false, false, ⟨[], 0, 16⟩, ⟨[], 0, 16⟩⟩ rfl (by decide)
    (by decide) rfl (by decide) (by decide) (by decide)).1 (by decide)

/-- Counterexample to C3 as stated: push performs no comparison between
the hardware-reported ring read-pointer and any software-tracked index;
with the same software state, a hardware read-pointer of 2 and of 3 both
let push proceed normally (returning in-progress), so "hardware reports 3
where software expects 2" is not a fault. -/
theorem C3_counterexample :
    (hica_muc_chan_push_n ⟨15, 0xAA0, 0xBB0⟩ ⟨0, 0, 0, 2, 2⟩
        ⟨16, 16, 16, false, false, sgIterInit [⟨0x2000, 16⟩],
         sgIterInit [⟨0x2000, 16⟩]⟩).ret = -eInprogress ∧
    (hica_muc_chan_push_n ⟨15, 0xAA0, 0xBB0⟩ ⟨0, 0, 0, 3, 3⟩
        ⟨16, 16, 16, false, false, sgIterInit [⟨0x2000, 16⟩],
         sgIterInit [⟨0x2000, 16⟩]⟩).ret = -eInprogress ∧
    -eInprogress ≠ -eIo := by
  decide

/-- C3 (amended): the fatal desync fault is raised when the
hardware-reported source ring read-pointer is out of range
(at or beyond the ring size): push returns `-EIO`, the sweeper then
completes the request with `-EIO` through its completion callback,
returns the channel slot to idle, and the idle slot can be claimed by a
subsequent request. -/
theorem C3_desync_fault (chan : ChanN) (hw : HwN) (ctx : ReqCtxN) (r : Nat)
    (heof : ctx.eof = false)
    (hsn : hw.in_buf_cnt = 0)
    (hne : ¬ ctx.runlen ≤ ctx.src.offset)
    (hptr : chan.list_size ≤ hw.src_lst_ptr) :
    (hica_muc_chan_push_n chan hw ctx).ret = -eIo ∧
    processChan (pushNStep chan hw) ⟨false, ReqSlot.active r⟩ ctx =
      ⟨⟨false, ReqSlot.idle⟩, ctx, [(r, -eIo)], false⟩ ∧
    tryClaimSlot (processChan (pushNStep chan hw) ⟨false, ReqSlot.active r⟩
        ctx).chan.slot = true := by
  have hns : ¬ (hw.in_buf_cnt = 0 ∧ hw.out_buf_cnt = 0 ∧ ctx.eof = true) := by
    rintro ⟨_, _, h3⟩
    rw [heof] at h3
    exact absurd h3 (by decide)
  have hng : ¬ ((hw.in_buf_cnt ≠ 0 ∧ hw.out_buf_cnt ≠ 0) ∨ ctx.eof = true) := by
    rintro (⟨h1, _⟩ | h2)
    · exact h1 hsn
    · rw [heof] at h2
      exact absurd h2 (by decide)
  have hg3 : ¬ (ctx.runlen ≤ ctx.src.offset ∧ ctx.runlen ≤ ctx.dst.offset ∧
      hw.in_buf_cnt = 0) := by
    rintro ⟨h1, _, _⟩
    exact hne h1
  have hpush : hica_muc_chan_push_n chan hw ctx = ⟨-eIo, ctx, [], [], 0, 0⟩ := by
    unfold hica_muc_chan_push_n
    rw [if_neg hns, if_neg hng, if_neg hg3]
    unfold pushNFinish
    rw [if_pos ⟨by simp only [decide_eq_true_eq]; exact ⟨hsn, hne⟩, hptr⟩]
  have hstep : pushNStep chan hw ctx = (-eIo, ctx) := by
    unfold pushNStep
    rw [hpush]
  have hproc : processChan (pushNStep chan hw) ⟨false, ReqSlot.active r⟩ ctx =
      ⟨⟨false, ReqSlot.idle⟩, ctx, [(r, -eIo)], false⟩ := by
    unfold processChan chanPushWrap
    rw [if_neg (by decide : ¬ (false = true))]
    simp only [hstep]
    rw [if_neg (by decide : ¬ (-eIo = -eBusy)),
      if_neg (by decide : ¬ (-eIo = -eInprogress))]
    rw [if_neg (by decide : ¬ (-eIo = -eInprogress))]
  refine ⟨by rw [hpush], hproc, ?_⟩
  rw [hproc]
  rfl

/-- Witness for C3 (amended): concrete mid-request state where the
hardware reports source read-pointer 15 on a 15-slot ring. -/
theorem C3_desync_fault_witness :
    (hica_muc_chan_push_n ⟨15, 0xAA0, 0xBB0⟩ ⟨0, 0, 0, 15, 0⟩
        ⟨16, 16, 16, false, false, sgIterInit [⟨0x2000, 16⟩],
         sgIterInit [⟨0x2000, 16⟩]⟩).ret = -eIo ∧
    processChan (pushNStep ⟨15, 0xAA0, 0xBB0⟩ ⟨0, 0, 0, 15, 0⟩)
        ⟨false, ReqSlot.active 7⟩
        ⟨16, 16, 16, false, false, sgIterInit [⟨0x2000, 16⟩],
         sgIterInit [⟨0x2000, 16⟩]⟩ =
      ⟨⟨false, ReqSlot.idle⟩,
       ⟨16, 16, 16, false, false, sgIterInit [⟨0x2000, 16⟩],
        sgIterInit [⟨0x2000, 16⟩]⟩, [(7, -eIo)], false⟩ ∧
    tryClaimSlot (processChan (pushNStep ⟨15, 0xAA0, 0xBB0⟩ ⟨0, 0, 0, 15, 0⟩)
        ⟨false, ReqSlot.active 7⟩
        ⟨16, 16, 16, false, false, sgIterInit [⟨0x2000, 16⟩],
         sgIterInit [⟨0x2000, 16⟩]⟩).chan.slot = true :=
  C3_desync_fault ⟨15, 0xAA0, 0xBB0⟩ ⟨0, 0, 0, 15, 0⟩
    ⟨16, 16, 16, false, false, sgIterInit [⟨0x2000, 16⟩],
     sgIterInit [⟨0x2000, 16⟩]⟩ 7 rfl rfl (by decide) (by decide)

/-- Counterexample to C6 as stated: when prepare fails (here the `-EIO` of
a failed source DMA mapping in `_hica_muc_chan_prepare_n`), the failure is
returned synchronously from `encrypt`/`decrypt` and the completion
callback is *not* invoked (the completion list is empty), contrary to the
claim that the failure flows back through the completion callback. -/
theorem C6_counterexample :
    hica_muc_chan_prepare_n_map false true false = -eIo ∧
    hica_muc_alg_encdec_tail 3 (-eIo) =
      ⟨-eIo, ReqSlot.idle, [], 1, false⟩ ∧
    (hica_muc_alg_encdec_tail 3 (-eIo)).completions = [] := by
  decide

/-- C6 (amended): any nonzero prepare result (such as DMA-mapping
failure) is surfaced as the synchronous return value of the
`encrypt`/`decrypt` call itself; the channel slot is reset to idle, the
completion callback is not invoked, prepare is attempted exactly once
(no internal retry), and the sweeper is not woken. -/
theorem C6_prepare_failure (r : Nat) (e : Int) (he : e ≠ 0) :
    hica_muc_alg_encdec_tail r e = ⟨e, ReqSlot.idle, [], 1, false⟩ := by
  simp [hica_muc_alg_encdec_tail, he]

/-- Witness for C6 (amended) at the concrete `-EIO` mapping failure. -/
theorem C6_prepare_failure_witness :
    (-eIo : Int) ≠ 0 ∧
    hica_muc_alg_encdec_tail 3 (-eIo) = ⟨-eIo, ReqSlot.idle, [], 1, false⟩ :=
  ⟨by decide, C6_prepare_failure 3 (-eIo) (by decide)⟩

/-- C8: the dirty-flag protocol.  (1) With `dirty` set, push is a no-op
returning already-busy (`-EBUSY`) without running the inner push or
changing any state.  (2) With `dirty` clear, push sets `dirty` exactly
when the inner push returns in-progress.  (3) The sweeper's per-channel
step never clears `dirty`.  (4) The interrupt handler clears `dirty` for
every channel whose (folded) interrupt-status bit is set. -/
theorem C8_dirty_protocol :
    (∀ (σ : Type) (inner : σ → Int × σ) (s : σ),
       chanPushWrap inner true s = (-eBusy, true, s)) ∧
    (∀ (σ : Type) (inner : σ → Int × σ) (s : σ),
       (chanPushWrap inner false s).2.1 = true ↔
         (inner s).1 = -eInprogress) ∧
    (∀ (σ : Type) (inner : σ → Int × σ) (c : SweepChan) (s : σ),
       c.dirty = true → (processChan inner c s).chan.dirty = true) ∧
    (∀ (intStatus id : Nat) (c : SweepChan),
       (intStatus ||| intStatus >>> MUC_CHAN_NUM).testBit id = true →
       (hica_muc_handle_clear intStatus id c).dirty = false) := by
  refine ⟨?_, ?_, ?_, ?_⟩
  · intro σ inner s
    simp [chanPushWrap]
  · intro σ inner s
    simp only [chanPushWrap, if_neg (by decide : ¬ (false = true))]
    split
    next h => simp [h]
    next h => simp [h]
  · intro σ inner c s hdirty
    obtain ⟨d, slot⟩ := c
    have hd : d = true := hdirty
    subst hd
    cases slot <;>
      simp [processChan, chanPushWrap, if_pos rfl]
  · intro intStatus id c hbit
    simp [hica_muc_handle_clear, hbit]

/-- Witness for C8 at concrete instantiations of each conjunct. -/
theorem C8_dirty_protocol_witness :
    chanPushWrap (fun n : Nat => ((0 : Int), n)) true 5 = (-eBusy, true, 5) ∧
    ((chanPushWrap (fun n : Nat => ((-eInprogress : Int), n)) false 5).2.1 =
        true ↔
      ((fun n : Nat => ((-eInprogress : Int), n)) 5).1 = -eInprogress) ∧
    (processChan (fun n : Nat => ((0 : Int), n))
        ⟨true, ReqSlot.active 1⟩ 5).chan.dirty = true ∧
    (hica_muc_handle_clear 1 0 ⟨true, ReqSlot.idle⟩).dirty = false :=
  ⟨C8_dirty_protocol.1 Nat (fun n => (0, n)) 5,
   C8_dirty_protocol.2.1 Nat (fun n => (-eInprogress, n)) 5,
   C8_dirty_protocol.2.2.1 Nat (fun n => (0, n)) ⟨true, ReqSlot.active 1⟩ 5
     rfl,
   C8_dirty_protocol.2.2.2 1 0 ⟨true, ReqSlot.idle⟩ (by decide)⟩

/-- Counterexample to C7 as stated: the classic DES *semi-weak* key
`01 FE 01 FE 01 FE 01 FE` is accepted by `hica_muc_alg_setkey` — the
driver's `des_check_weakkey` only rejects keys whose 4-byte half is
uniform up to the parity bit, which catches the four weak keys but none
of the semi-weak keys. -/
theorem C7_counterexample :
    [0x01, 0xFE, 0x01, 0xFE, 0x01, 0xFE, 0x01, 0xFE] ∈ desSemiWeakKeys ∧
    hica_muc_alg_setkey MUC_ALG_DES
        [0x01, 0xFE, 0x01, 0xFE, 0x01, 0xFE, 0x01, 0xFE] 8 =
      Except.ok ([0x01, 0xFE, 0x01, 0xFE, 0x01, 0xFE, 0x01, 0xFE], 8, 0) := by
  decide

/-- C7 (amended): `set_key` synchronously rejects (with `-EINVAL`, before
any hardware interaction — the function touches no registers) key lengths
above 32 bytes, AES lengths other than 16/24/32, DES lengths other than
8, 3DES lengths other than 24, and DES keys flagged by the
uniform-half screen — which includes all four classic DES weak keys
(classic semi-weak keys are NOT rejected, see the counterexample); every
other supported key is accepted with the key copy, key size and
key-selector bits recorded. -/
theorem C7_setkey_validation :
    (∀ (alg : Nat) (key : List Nat) (keylen : Nat), MUC_KEY_SIZE < keylen →
       hica_muc_alg_setkey alg key keylen = Except.error (-eInval)) ∧
    (∀ (key : List Nat) (keylen : Nat),
       keylen ≠ 16 ∧ keylen ≠ 24 ∧ keylen ≠ 32 →
       hica_muc_alg_setkey MUC_ALG_AES key keylen =
         Except.error (-eInval)) ∧
    (∀ (key : List Nat) (keylen : Nat), keylen ≠ DES_KEY_SIZE →
       hica_muc_alg_setkey MUC_ALG_DES key keylen =
         Except.error (-eInval)) ∧
    (∀ (key : List Nat) (keylen : Nat), keylen ≠ DES3_EDE_KEY_SIZE →
       hica_muc_alg_setkey MUC_ALG_DES3_EDE key keylen =
         Except.error (-eInval)) ∧
    (∀ key ∈ desWeakKeys,
       hica_muc_alg_setkey MUC_ALG_DES key 8 = Except.error (-eInval)) ∧
    (∀ key : List Nat, des_check_weakkey key = 0 →
       hica_muc_alg_setkey MUC_ALG_DES key 8 =
         Except.ok (key.take 8, 8, 0)) ∧
    (∀ (key : List Nat) (keylen : Nat),
       keylen = 16 ∨ keylen = 24 ∨ keylen = 32 →
       hica_muc_alg_setkey MUC_ALG_AES key keylen =
         Except.ok (key.take keylen, keylen,
           hica_muc_ctrl_key_lookup MUC_ALG_AES keylen)) ∧
    (∀ key : List Nat,
       hica_muc_alg_setkey MUC_ALG_DES3_EDE key 24 =
         Except.ok (key.take 24, 24, 0)) := by
  refine ⟨?_, ?_, ?_, ?_, ?_, ?_, ?_, ?_⟩
  · intro alg key keylen hlen
    unfold hica_muc_alg_setkey
    rw [if_pos hlen]
  · intro key keylen ⟨h16, h24, h32⟩
    unfold hica_muc_alg_setkey
    by_cases h33 : MUC_KEY_SIZE < keylen
    · rw [if_pos h33]
    · rw [if_neg h33, if_pos rfl,
        if_pos (show aes_check_keylen keylen ≠ 0 by
          unfold aes_check_keylen
          rw [if_neg (by tauto)]
          decide)]
  · intro key keylen hne
    unfold hica_muc_alg_setkey
    by_cases h33 : MUC_KEY_SIZE < keylen
    · rw [if_pos h33]
    · rw [if_neg h33, if_neg (by decide : ¬ MUC_ALG_DES = MUC_ALG_AES),
        if_pos rfl, if_pos hne]
  · intro key keylen hne
    unfold hica_muc_alg_setkey
    by_cases h33 : MUC_KEY_SIZE < keylen
    · rw [if_pos h33]
    · rw [if_neg h33,
        if_neg (by decide : ¬ MUC_ALG_DES3_EDE = MUC_ALG_AES),
        if_neg (by decide : ¬ MUC_ALG_DES3_EDE = MUC_ALG_DES),
        if_pos rfl, if_pos hne]
  · intro key hkey
    simp only [desWeakKeys, List.mem_cons, List.not_mem_nil, or_false]
      at hkey
    rcases hkey with rfl | rfl | rfl | rfl <;> decide
  · intro key hok
    unfold hica_muc_alg_setkey
    rw [if_neg (by decide : ¬ MUC_KEY_SIZE < 8),
      if_neg (by decide : ¬ MUC_ALG_DES = MUC_ALG_AES), if_pos rfl,
      if_neg (by decide : ¬ (8 : Nat) ≠ DES_KEY_SIZE),
      if_neg (show ¬ des_check_weakkey key ≠ 0 by simp [hok])]
    rfl
  · intro key keylen hok
    unfold hica_muc_alg_setkey
    have h33 : ¬ MUC_KEY_SIZE < keylen := by
      show ¬ (32 : Nat) < keylen
      omega
    rw [if_neg h33, if_pos rfl,
      if_neg (show ¬ aes_check_keylen keylen ≠ 0 by
        unfold aes_check_keylen
        rw [if_pos hok]
        decide)]
  · intro key
    unfold hica_muc_alg_setkey
    rw [if_neg (by decide : ¬ MUC_KEY_SIZE < 24),
      if_neg (by decide : ¬ MUC_ALG_DES3_EDE = MUC_ALG_AES),
      if_neg (by decide : ¬ MUC_ALG_DES3_EDE = MUC_ALG_DES), if_pos rfl,
      if_neg (by decide : ¬ (24 : Nat) ≠ DES3_EDE_KEY_SIZE)]
    rfl

/-- Witness for C7 (amended) at concrete keys: an oversized key, wrong
AES/DES/3DES lengths, the weak key `01...01`, a non-weak DES key, an
AES-128 key and a 3DES key. -/
theorem C7_setkey_validation_witness :
    hica_muc_alg_setkey MUC_ALG_AES [] 33 = Except.error (-eInval) ∧
    hica_muc_alg_setkey MUC_ALG_AES [] 10 = Except.error (-eInval) ∧
    hica_muc_alg_setkey MUC_ALG_DES [] 7 = Except.error (-eInval) ∧
    hica_muc_alg_setkey MUC_ALG_DES3_EDE [] 16 = Except.error (-eInval) ∧
    hica_muc_alg_setkey MUC_ALG_DES
        [0x01, 0x01, 0x01, 0x01, 0x01, 0x01, 0x01, 0x01] 8 =
      Except.error (-eInval) ∧
    hica_muc_alg_setkey MUC_ALG_DES [0, 1, 2, 3, 4, 5, 6, 7] 8 =
      Except.ok ([0, 1, 2, 3, 4, 5, 6, 7], 8, 0) ∧
    hica_muc_alg_setkey MUC_ALG_AES
        [0, 1, 2, 3, 4, 5, 6, 7, 8, 9, 10, 11, 12, 13, 14, 15] 16 =
      Except.ok ([0, 1, 2, 3, 4, 5, 6, 7, 8, 9, 10, 11, 12, 13, 14, 15], 16,
        hica_muc_ctrl_key_lookup MUC_ALG_AES 16) ∧
    hica_muc_alg_setkey MUC_ALG_DES3_EDE (List.range 24) 24 =
      Except.ok ((List.range 24).take 24, 24, 0) :=
  ⟨C7_setkey_validation.1 MUC_ALG_AES [] 33 (by decide),
   C7_setkey_validation.2.1 [] 10 (by decide),
   C7_setkey_validation.2.2.1 [] 7 (by decide),
   C7_setkey_validation.2.2.2.1 [] 16 (by decide),
   C7_setkey_validation.2.2.2.2.1
     [0x01, 0x01, 0x01, 0x01, 0x01, 0x01, 0x01, 0x01] (by decide),
   C7_setkey_validation.2.2.2.2.2.1 [0, 1, 2, 3, 4, 5, 6, 7] (by decide),
   C7_setkey_validation.2.2.2.2.2.2.1
     [0, 1, 2, 3, 4, 5, 6, 7, 8, 9, 10, 11, 12, 13, 14, 15] 16
     (Or.inl rfl),
   C7_setkey_validation.2.2.2.2.2.2.2 (List.range 24)⟩

/-- C9: the channel-availability decision of probe fails with `-ENODEV`
when no channel passes the interrupt self-test (after removing
admin-disabled ones), and fails with `-EINVAL` when only the slow channel
passes and no channel was admin-disabled, refusing a degraded slow-only
accelerator. -/
theorem C9_probe_refusal (val disable_mask : Nat) :
    (mucChanMask val disable_mask = 0 →
       hica_muc_probe_chan_check val disable_mask =
         Except.error (-eNodev)) ∧
    (mucChanMask val disable_mask = 1 <<< MUC_CHAN_PKG1 ∧ disable_mask = 0 →
       hica_muc_probe_chan_check val disable_mask =
         Except.error (-eInval)) := by
  constructor
  · intro h
    unfold hica_muc_probe_chan_check
    rw [if_pos h]
  · rintro ⟨h1, h2⟩
    unfold hica_muc_probe_chan_check
    rw [if_neg (by rw [h1]; decide), if_pos ⟨h1, h2⟩]

/-- Witness for C9: with no interrupt bits set probe reports `-ENODEV`;
with only the slow channel's bit (bit 8) set and nothing admin-disabled
it reports `-EINVAL`. -/
theorem C9_probe_refusal_witness :
    hica_muc_probe_chan_check 0 0 = Except.error (-eNodev) ∧
    hica_muc_probe_chan_check 0x100 0 = Except.error (-eInval) :=
  ⟨(C9_probe_refusal 0 0).1 (by decide),
   (C9_probe_refusal 0x100 0).2 ⟨by decide, rfl⟩⟩

/-- C4: for any request parameters, starting from erased (all-zero)
channel regions, after the request's prepare writes, hardware activity
and `hica_muc_chan_unprepare`, the key registers, IV-input and IV-output
registers and the plaintext/ciphertext scratch memory of the slow
channel, and the key registers, IV-output registers and IV scratch
buffer of a ring channel, all read zero. -/
theorem C4_unprepare_erases (ecb : Bool)
    (ivsize chunksize keysize : Nat)
    (iv key data blocks hwiv inout2 ivn keyn hwivn : Nat → Nat) (i : Nat) :
    ((hica_muc_chan_unprepare_regs ecb ivsize chunksize keysize
        (hica_muc_chan_run_0_regs ecb ivsize chunksize blocks hwiv inout2
          (hica_muc_chan_prepare_0_regs ecb ivsize keysize iv key data
            chan0ZeroRegs))).key i = 0 ∧
     (hica_muc_chan_unprepare_regs ecb ivsize chunksize keysize
        (hica_muc_chan_run_0_regs ecb ivsize chunksize blocks hwiv inout2
          (hica_muc_chan_prepare_0_regs ecb ivsize keysize iv key data
            chan0ZeroRegs))).iv_in i = 0 ∧
     (hica_muc_chan_unprepare_regs ecb ivsize chunksize keysize
        (hica_muc_chan_run_0_regs ecb ivsize chunksize blocks hwiv inout2
          (hica_muc_chan_prepare_0_regs ecb ivsize keysize iv key data
            chan0ZeroRegs))).iv_out i = 0 ∧
     (hica_muc_chan_unprepare_regs ecb ivsize chunksize keysize
        (hica_muc_chan_run_0_regs ecb ivsize chunksize blocks hwiv inout2
          (hica_muc_chan_prepare_0_regs ecb ivsize keysize iv key data
            chan0ZeroRegs))).data_in i = 0 ∧
     (hica_muc_chan_unprepare_regs ecb ivsize chunksize keysize
        (hica_muc_chan_run_0_regs ecb ivsize chunksize blocks hwiv inout2
          (hica_muc_chan_prepare_0_regs ecb ivsize keysize iv key data
            chan0ZeroRegs))).inout i = 0) ∧
    ((hica_muc_chan_unprepare_n_regs ecb ivsize keysize
        (hica_muc_chan_run_n_regs ecb ivsize hwivn
          (hica_muc_chan_prepare_n_regs ecb keysize ivn keyn
            chanNZeroRegs))).key i = 0 ∧
     (hica_muc_chan_unprepare_n_regs ecb ivsize keysize
        (hica_muc_chan_run_n_regs ecb ivsize hwivn
          (hica_muc_chan_prepare_n_regs ecb keysize ivn keyn
            chanNZeroRegs))).iv_out i = 0 ∧
     (hica_muc_chan_unprepare_n_regs ecb ivsize keysize
        (hica_muc_chan_run_n_regs ecb ivsize hwivn
          (hica_muc_chan_prepare_n_regs ecb keysize ivn keyn
            chanNZeroRegs))).iv_scratch i = 0) := by
  cases ecb <;> by_cases hks : keysize = 0 <;>
    refine ⟨⟨?_, ?_, ?_, ?_, ?_⟩, ?_, ?_, ?_⟩ <;>
    simp [hica_muc_chan_unprepare_regs, hica_muc_chan_unprepare_0_regs,
      hica_muc_chan_run_0_regs, hica_muc_chan_prepare_0_regs,
      hica_muc_chan_unprepare_n_regs, hica_muc_chan_run_n_regs,
      hica_muc_chan_prepare_n_regs, chan0ZeroRegs, chanNZeroRegs,
      overwrite, eraseWords, regionZero, hks] <;>
    omega

/-- Witness for C10 (amended) at the concrete padded stream request: the
pad descriptor carries end-of-list, points at the pad buffer, and no
descriptor carries the dummy bit. -/
theorem C10_no_dummy_flag_witness :
    emitAll ⟨16, 4, 16, false, false, 0xAA0, 0xBB0, 15⟩ 40
        (sgIterInit [⟨0x3000, 4⟩]) =
      some [⟨0x3000, 4, 0, none⟩,
            ⟨0xAA0, 12, MUC_BUF_FLAG_SET_IV + MUC_BUF_FLAG_END_OF_LIST,
             some 0xBB0⟩] ∧
    ((∀ d ∈ ([⟨0x3000, 4, 0, none⟩,
              ⟨0xAA0, 12, MUC_BUF_FLAG_SET_IV + MUC_BUF_FLAG_END_OF_LIST,
               some 0xBB0⟩] : List MucBuf), d.flags.testBit 20 = false) ∧
     (∀ p ∈ withStarts 0
          ([⟨0x3000, 4, 0, none⟩,
            ⟨0xAA0, 12, MUC_BUF_FLAG_SET_IV + MUC_BUF_FLAG_END_OF_LIST,
             some 0xBB0⟩] : List MucBuf), (4 : Nat) ≤ p.1 →
        p.2.addr = 0xAA0 ∧ p.2.flags.testBit 22 = true) ∧
     ((eofFixBuf ⟨15, 0xAA0, 0xBB0⟩).addr = 0xAA0 ∧
      (eofFixBuf ⟨15, 0xAA0, 0xBB0⟩).flags = MUC_BUF_FLAG_END_OF_LIST ∧
      (eofFixBuf ⟨15, 0xAA0, 0xBB0⟩).flags.testBit 20 = false ∧
      (eofFixBuf ⟨15, 0xAA0, 0xBB0⟩).flags.testBit 21 = false)) :=
  ⟨by decide,
   C10_no_dummy_flag ⟨16, 4, 16, false, false, 0xAA0, 0xBB0, 15⟩ 40
     (sgIterInit [⟨0x3000, 4⟩])
     ([⟨0x3000, 4, 0, none⟩,
       ⟨0xAA0, 12, MUC_BUF_FLAG_SET_IV + MUC_BUF_FLAG_END_OF_LIST,
        some 0xBB0⟩] : List MucBuf)
     ⟨15, 0xAA0, 0xBB0⟩ (by decide)⟩

end MucSpec
